import Mathlib

/-!
Verification of the streaming data-flow engine's internal data model
(readable/writable stream scaffolding from `ext/web/06_streams_types.d.ts`
and the Node inspector shim).

The repository excerpt supplies the internal type scaffolding; the queue,
backpressure, pull-into and abort algorithms operating on these types are
modelled from the specification document where the implementation is not
part of the excerpt (each such definition carries a
`Modelled from the spec:` doc comment).
-/

set_option maxHeartbeats 1000000

/-! ## Queue of sized entries (default streams)

Embedded from `06_streams_types.d.ts`:
`interface ValueWithSize<T> { value: T; size: number; }`
Sizes are arbitrary (possibly fractional) numbers; we model them as `ℚ`. -/

structure ValueWithSize (α : Type) where
  value : α
  size : ℚ
deriving Repr

/-- The shared internal queue structure: an ordered sequence of sized
entries together with a running total size. -/
structure QueueState (α : Type) where
  queue : List (ValueWithSize α)
  queueTotalSize : ℚ
deriving Repr

/-- The empty queue. -/
def QueueState.initial (α : Type) : QueueState α := ⟨[], 0⟩

/-- Modelled from the spec: `enqueue(chunk)` computes the chunk's size,
rejects a negative size (the stream errors, the queue is untouched),
otherwise pushes `{value, size}` at the back and adds `size` to
`queueTotalSize`. -/
def enqueueValueWithSize (s : QueueState α) (v : α) (size : ℚ) :
    Except String (QueueState α) :=
  if size < 0 then Except.error "RangeError: invalid size"
  else Except.ok ⟨s.queue ++ [⟨v, size⟩], s.queueTotalSize + size⟩

/-- Modelled from the spec: dequeuing pops the head entry (FIFO) and
subtracts its size from `queueTotalSize`. -/
def dequeueValue (s : QueueState α) : Option (α × QueueState α) :=
  match s.queue with
  | [] => Option.none
  | e :: rest => some (e.value, ⟨rest, s.queueTotalSize - e.size⟩)

/-- An observation-point operation on the queue. -/
inductive QueueOp (α : Type) where
  | enqueue (v : α) (size : ℚ)
  | dequeue
deriving Repr

/-- One operation step; a rejected enqueue (negative size) leaves the
queue untouched, as does a dequeue on an empty queue. -/
def QueueState.applyOp (s : QueueState α) : QueueOp α → QueueState α
  | QueueOp.enqueue v size =>
    match enqueueValueWithSize s v size with
    | Except.ok s' => s'
    | Except.error _ => s
  | QueueOp.dequeue =>
    match dequeueValue s with
    | some (_, s') => s'
    | Option.none => s

/-- The queue state reached after a sequence of operations from empty. -/
def runQueueOps (ops : List (QueueOp α)) : QueueState α :=
  ops.foldl QueueState.applyOp (QueueState.initial α)

/-- The queue accounting invariant: the running total equals the sum of the
queued entries' sizes, and every queued size is non-negative. -/
def QueueState.Inv (s : QueueState α) : Prop :=
  s.queueTotalSize = (s.queue.map ValueWithSize.size).sum ∧
    ∀ e ∈ s.queue, 0 ≤ e.size

theorem QueueState.inv_initial : (QueueState.initial α).Inv := by
  constructor
  · simp [QueueState.initial]
  · intro e he
    simp [QueueState.initial] at he

theorem QueueState.inv_applyOp {s : QueueState α} (h : s.Inv) (op : QueueOp α) :
    (s.applyOp op).Inv := by
  obtain ⟨htot, hpos⟩ := h
  cases op with
  | enqueue v size =>
    by_cases hneg : size < 0
    · simpa [QueueState.applyOp, enqueueValueWithSize, hneg] using ⟨htot, hpos⟩
    · constructor
      · simp [QueueState.applyOp, enqueueValueWithSize, hneg, htot]
      · intro e he
        simp [QueueState.applyOp, enqueueValueWithSize, hneg] at he
        rcases he with he | he
        · exact hpos e he
        · rw [he]
          exact le_of_not_lt hneg
  | dequeue =>
    cases hq : s.queue with
    | nil => simpa [QueueState.applyOp, dequeueValue, hq] using ⟨htot, hpos⟩
    | cons e rest =>
      have happ : s.applyOp QueueOp.dequeue = ⟨rest, s.queueTotalSize - e.size⟩ := by
        simp [QueueState.applyOp, dequeueValue, hq]
      constructor
      · rw [happ, htot, hq, List.map_cons, List.sum_cons]
        ring
      · intro x hx
        simp [QueueState.applyOp, dequeueValue, hq] at hx
        exact hpos x (by rw [hq]; exact List.mem_cons_of_mem e hx)

theorem inv_runQueueOps (ops : List (QueueOp α)) : (runQueueOps ops).Inv := by
  rw [runQueueOps]
  induction ops using List.reverseRecOn with
  | nil => exact QueueState.inv_initial
  | append_singleton xs op ih =>
    rw [List.foldl_append, List.foldl_cons, List.foldl_nil]
    exact QueueState.inv_applyOp ih op

/-- C2: at every observation point along any sequence of enqueue and
dequeue operations, `queueTotalSize` equals the sum of the
currently-queued entries' sizes, and every entry's size is non-negative. -/
theorem queueTotalSize_eq_sum_and_nonneg (α : Type) (ops : List (QueueOp α)) :
    (runQueueOps ops).queueTotalSize =
      ((runQueueOps ops).queue.map ValueWithSize.size).sum ∧
    ∀ e ∈ (runQueueOps ops).queue, 0 ≤ e.size :=
  inv_runQueueOps ops

/-! ## desiredSize and backpressure (C4) -/

/-- Modelled from the spec: `desiredSize = highWaterMark - queueTotalSize`. -/
def desiredSize (highWaterMark : ℚ) (s : QueueState α) : ℚ :=
  highWaterMark - s.queueTotalSize

/-- Modelled from the spec: backpressure is asserted when the configured
high-water mark no longer exceeds the bytes/chunks accounted in the queue
(the readiness signal stays pending while the queue is at capacity). -/
def backpressureAsserted (highWaterMark : ℚ) (s : QueueState α) : Bool :=
  decide (highWaterMark ≤ ((s.queue.map ValueWithSize.size).sum : ℚ))

/-- C4: in every controller state reachable by queue operations,
`desiredSize` equals `highWaterMark - queueTotalSize` (equivalently,
the high-water mark minus the summed entry sizes), and backpressure is
asserted exactly when `desiredSize ≤ 0`. -/
theorem desiredSize_and_backpressure (α : Type) (highWaterMark : ℚ)
    (ops : List (QueueOp α)) :
    desiredSize highWaterMark (runQueueOps ops) =
      highWaterMark - ((runQueueOps ops).queue.map ValueWithSize.size).sum ∧
    (backpressureAsserted highWaterMark (runQueueOps ops) = true ↔
      desiredSize highWaterMark (runQueueOps ops) ≤ 0) := by
  obtain ⟨htot, -⟩ := inv_runQueueOps (α := α) ops
  constructor
  · rw [desiredSize, htot]
  · rw [backpressureAsserted, desiredSize, htot]
    simp [sub_nonpos]

/-! ## FIFO delivery of read requests (C3)

Modelled from the spec: a reader's `read()` returns queued data instantly
if available (FIFO), else enqueues a pending read request; `enqueue`
immediately resolves the oldest waiting request, bypassing the queue
store, else pushes the chunk. Each read request is identified by its
submission index; `resolvedLog` records resolutions in resolution order. -/

structure DefaultReaderSim (α : Type) where
  queue : List α
  readRequests : List ℕ
  resolvedLog : List (ℕ × α)
  nextReadId : ℕ
deriving Repr

def DefaultReaderSim.initial (α : Type) : DefaultReaderSim α := ⟨[], [], [], 0⟩

/-- Modelled from the spec: one `read()` call. -/
def simRead (s : DefaultReaderSim α) : DefaultReaderSim α :=
  match s.queue with
  | c :: rest =>
    { s with
      queue := rest
      resolvedLog := s.resolvedLog ++ [(s.nextReadId, c)]
      nextReadId := s.nextReadId + 1 }
  | [] =>
    { s with
      readRequests := s.readRequests ++ [s.nextReadId]
      nextReadId := s.nextReadId + 1 }

/-- Modelled from the spec: one `enqueue(chunk)` call; a waiting read
request (oldest first) is resolved directly with the chunk. -/
def simEnqueue (s : DefaultReaderSim α) (v : α) : DefaultReaderSim α :=
  match s.readRequests with
  | id :: rest =>
    { s with readRequests := rest, resolvedLog := s.resolvedLog ++ [(id, v)] }
  | [] => { s with queue := s.queue ++ [v] }

/-- `n` consecutive `read()` calls. -/
def simReads (n : ℕ) (s : DefaultReaderSim α) : DefaultReaderSim α :=
  simRead^[n] s

/-- Consecutive `enqueue` calls, in submission order. -/
def simEnqueues (vs : List α) (s : DefaultReaderSim α) : DefaultReaderSim α :=
  vs.foldl simEnqueue s

theorem simReads_initial (α : Type) (n : ℕ) :
    simReads n (DefaultReaderSim.initial α) = ⟨[], List.range n, [], n⟩ := by
  induction n with
  | zero => rfl
  | succ k ih =>
    rw [simReads, Function.iterate_succ_apply', ← simReads, ih]
    rw [simRead]
    simp [List.range_succ]

theorem simEnqueues_pending (α : Type) (vs : List α) :
    ∀ (ids : List ℕ) (log : List (ℕ × α)) (q : List α) (next : ℕ),
      vs.length ≤ ids.length →
      simEnqueues vs ⟨q, ids, log, next⟩ =
        ⟨q, ids.drop vs.length, log ++ ids.zip vs, next⟩ := by
  induction vs with
  | nil =>
    intro ids log q next _
    simp [simEnqueues]
  | cons v vs' ih =>
    intro ids log q next hlen
    cases ids with
    | nil => simp at hlen
    | cons id rest =>
      rw [simEnqueues, List.foldl_cons, ← simEnqueues]
      rw [simEnqueue]
      simp only [List.length_cons] at hlen
      rw [ih rest (log ++ [(id, v)]) q next (Nat.le_of_succ_le_succ hlen)]
      simp [List.zip_cons_cons, List.append_assoc]

/-- C3: with N pending `read()` calls followed by N `enqueue` calls, the
i-th read (0-indexed submission id `i`) resolves with the value supplied
by the i-th enqueue, and resolutions happen in submission order. -/
theorem reads_resolve_fifo (α : Type) (vs : List α) :
    (simEnqueues vs (simReads vs.length (DefaultReaderSim.initial α))).resolvedLog
      = (List.range vs.length).zip vs := by
  rw [simReads_initial]
  rw [simEnqueues_pending α vs (List.range vs.length) [] [] vs.length
    (by rw [List.length_range])]
  simp

/-! ## ReadRequest and ReadIntoRequest (C8)

Embedded from `06_streams_types.d.ts`:
`interface ReadRequest<R> { chunkSteps: (chunk: R) => void; closeSteps: () => void; errorSteps: (error) => void; }`
`interface ReadIntoRequest { chunkSteps: (chunk: ArrayBufferView) => void; closeSteps: (chunk?: ArrayBufferView) => void; errorSteps: (error) => void; }`
The continuations produce host effects, abstracted by a type `F`;
errors by a type `E`; `ArrayBufferView` by a type `V`. -/

structure ReadRequest (R E F : Type) where
  chunkSteps : R → F
  closeSteps : F
  errorSteps : E → F

structure ReadIntoRequest (V E F : Type) where
  chunkSteps : V → F
  closeSteps : Option V → F
  errorSteps : E → F

/-- Modelled from the spec: fulfilling one read request takes the request
at the head of the reader's pending queue (oldest first), removes it, and
runs its `chunkSteps` continuation on the chunk. -/
def fulfillReadRequest (pending : List (ReadRequest R E F)) (chunk : R) :
    Option (F × List (ReadRequest R E F)) :=
  match pending with
  | [] => Option.none
  | req :: rest => some (req.chunkSteps chunk, rest)

/-- Delivering a sequence of chunks to a reader: effects emitted in
delivery order, each consuming the oldest pending request. -/
def fulfillAll : List (ReadRequest R E F) → List R → List F
  | _, [] => []
  | pending, c :: cs =>
    match fulfillReadRequest pending c with
    | Option.none => []
    | some (eff, rest) => eff :: fulfillAll rest cs

/-- C8: a ReadRequest and a ReadIntoRequest each carry exactly the three
continuations `chunkSteps`, `closeSteps`, `errorSteps` (every record is
rebuilt from just those three projections), and pending requests are
fulfilled FIFO: delivering chunks pairs the i-th pending request with the
i-th chunk, in request order. -/
theorem readRequests_three_continuations_fifo (R E F V : Type) :
    (∀ r : ReadRequest R E F,
      ReadRequest.mk r.chunkSteps r.closeSteps r.errorSteps = r) ∧
    (∀ r : ReadIntoRequest V E F,
      ReadIntoRequest.mk r.chunkSteps r.closeSteps r.errorSteps = r) ∧
    (∀ (pending : List (ReadRequest R E F)) (chunks : List R),
      fulfillAll pending chunks =
        List.zipWith (fun req c => req.chunkSteps c) pending chunks) := by
  refine ⟨fun r => rfl, fun r => rfl, ?_⟩
  intro pending chunks
  induction chunks generalizing pending with
  | nil => cases pending <;> rfl
  | cons c cs ih =>
    cases pending with
    | nil => rfl
    | cons req rest =>
      simp only [fulfillAll, fulfillReadRequest, List.zipWith_cons_cons, ih rest]

/-! ## PullIntoDescriptor (C1, C9)

Embedded from `06_streams_types.d.ts` (current branch side of the file,
which carries `minimumFill`):
`interface PullIntoDescriptor { buffer; bufferByteLength; byteOffset; byteLength; bytesFilled; minimumFill; elementSize; viewConstructor; readerType: "default" | "byob" | "none"; }`
`buffer` (an `ArrayBuffer`) is abstracted by a type `B` and
`viewConstructor` by a type `V`. -/

inductive ReaderType where
  | default
  | byob
  | none
deriving Repr, DecidableEq

structure PullIntoDescriptor (B V : Type) where
  buffer : B
  bufferByteLength : ℕ
  byteOffset : ℕ
  byteLength : ℕ
  bytesFilled : ℕ
  minimumFill : ℕ
  elementSize : ℕ
  viewConstructor : V
  readerType : ReaderType

/-- The descriptor invariant: `0 ≤ bytesFilled ≤ byteLength` (the lower
bound is inherent to `ℕ`), `elementSize > 0`, and `minimumFill` is a
multiple of `elementSize` and at most `byteLength`. -/
def PullIntoDescriptor.Inv (d : PullIntoDescriptor B V) : Prop :=
  d.bytesFilled ≤ d.byteLength ∧ 0 < d.elementSize ∧
    d.elementSize ∣ d.minimumFill ∧ d.minimumFill ≤ d.byteLength

instance (d : PullIntoDescriptor B V) : Decidable d.Inv := by
  rw [PullIntoDescriptor.Inv]
  infer_instance

/-- Modelled from the spec: registering a BYOB read creates a descriptor
over the destination window. The window spans a whole number of elements
(`numElements * elementSize` bytes), the fill requirement a whole number
of elements as well (`minElements * elementSize` bytes, within the
window), and filling starts at zero. -/
def mkPullIntoDescriptor (buffer : B) (bufferByteLength byteOffset : ℕ)
    (elementSize numElements minElements : ℕ) (viewCtor : V)
    (rt : ReaderType) : PullIntoDescriptor B V :=
  { buffer := buffer
    bufferByteLength := bufferByteLength
    byteOffset := byteOffset
    byteLength := numElements * elementSize
    bytesFilled := 0
    minimumFill := minElements * elementSize
    elementSize := elementSize
    viewConstructor := viewCtor
    readerType := rt }

/-- Modelled from the spec: filling a descriptor copies at most the
remaining capacity of the destination window — it never over-reads past
`byteLength`. -/
def fillPullInto (d : PullIntoDescriptor B V) (n : ℕ) :
    PullIntoDescriptor B V :=
  { d with bytesFilled := min (d.bytesFilled + n) d.byteLength }

/-- C1: every PullIntoDescriptor carries exactly the fields `buffer`,
`bufferByteLength`, `byteOffset`, `byteLength`, `bytesFilled`,
`minimumFill`, `elementSize`, `viewConstructor` (the spec's `viewKind`)
and `readerType`; a freshly registered descriptor satisfies the invariant
`0 ≤ bytesFilled ≤ byteLength`, `elementSize > 0`, `minimumFill` a
multiple of `elementSize` and `≤ byteLength`; and filling preserves it. -/
theorem pullIntoDescriptor_fields_and_inv (B V : Type) :
    (∀ d : PullIntoDescriptor B V,
      PullIntoDescriptor.mk d.buffer d.bufferByteLength d.byteOffset
        d.byteLength d.bytesFilled d.minimumFill d.elementSize
        d.viewConstructor d.readerType = d) ∧
    (∀ (buffer : B) (bufferByteLength byteOffset : ℕ)
        (elementSize numElements minElements : ℕ) (viewCtor : V)
        (rt : ReaderType), 0 < elementSize → minElements ≤ numElements →
      (mkPullIntoDescriptor buffer bufferByteLength byteOffset elementSize
        numElements minElements viewCtor rt).Inv) ∧
    (∀ (d : PullIntoDescriptor B V) (n : ℕ), d.Inv → (fillPullInto d n).Inv) := by
  refine ⟨fun d => rfl, ?_, ?_⟩
  · intro buffer bbl off es nE mE vc rt hes hle
    refine ⟨Nat.zero_le _, hes, dvd_mul_left es mE, ?_⟩
    exact Nat.mul_le_mul_right es hle
  · intro d n hd
    obtain ⟨hfill, hes, hdvd, hmin⟩ := hd
    exact ⟨min_le_right _ _, hes, hdvd, hmin⟩

/-- C1 witness: the registration and fill facts at the spec's BYOB-split
example (`byteLength = 10`, `elementSize = 1`, `minimumFill = 4`,
then 6 bytes filled). -/
theorem pullIntoDescriptor_fields_and_inv_witness :
    (mkPullIntoDescriptor (B := Unit) (V := Unit) () 10 0 1 10 4 ()
      ReaderType.byob).Inv ∧
    (fillPullInto (mkPullIntoDescriptor (B := Unit) (V := Unit) () 10 0 1 10 4 ()
      ReaderType.byob) 6).Inv := by
  constructor
  · exact (pullIntoDescriptor_fields_and_inv Unit Unit).2.1 () 10 0 1 10 4 ()
      ReaderType.byob (by decide) (by decide)
  · exact (pullIntoDescriptor_fields_and_inv Unit Unit).2.2 _ 6
      ((pullIntoDescriptor_fields_and_inv Unit Unit).2.1 () 10 0 1 10 4 ()
        ReaderType.byob (by decide) (by decide))

/-- C9: `readerType` admits exactly the three values `"default"`,
`"byob"` and `"none"` — three pairwise distinct values exhausting the
type — so a descriptor associated with no reader kind can exist: one with
`readerType = "none"`. -/
theorem readerType_three_values_including_none :
    (∀ rt : ReaderType, rt = ReaderType.default ∨ rt = ReaderType.byob ∨
      rt = ReaderType.none) ∧
    (ReaderType.default ≠ ReaderType.byob ∧ ReaderType.byob ≠ ReaderType.none ∧
      ReaderType.default ≠ ReaderType.none) ∧
    (∃ d : PullIntoDescriptor Unit Unit, d.readerType = ReaderType.none) := by
  refine ⟨?_, ⟨by decide, by decide, by decide⟩, ?_⟩
  · intro rt
    cases rt
    · exact Or.inl rfl
    · exact Or.inr (Or.inl rfl)
    · exact Or.inr (Or.inr rfl)
  · exact ⟨mkPullIntoDescriptor () 0 0 1 0 0 () ReaderType.none, rfl⟩

/-! ## PendingAbortRequest and the writable abort sequence (C5, C6)

Embedded from `06_streams_types.d.ts`:
`interface PendingAbortRequest { deferred: Deferred<void>; reason: any; wasAlreadyErroring: boolean; }`
(the spec's data model calls the `deferred` field `completion`). The
Deferred completion signal is modelled by its identity, a `ℕ`; reasons by
a type `E`. -/

structure PendingAbortRequest (E : Type) where
  deferred : ℕ
  reason : E
  wasAlreadyErroring : Bool

/-- Writable stream states (`closing` is a refinement of `writable` not
needed for the abort sequence). -/
inductive WritableState where
  | writable
  | erroring
  | errored
  | closed
deriving Repr, DecidableEq

/-- A writable stream, as far as the abort sequence is concerned: the
state, the at-most-one pending abort request, a fresh-deferred counter,
and observation logs of sink `abort` invocations and settled deferreds. -/
structure WritableStream (E : Type) where
  state : WritableState
  pendingAbortRequest : Option (PendingAbortRequest E)
  nextDeferredId : ℕ
  sinkAbortCalls : List E
  settledDeferreds : List ℕ

/-- The outcome handed to an `abort(reason)` caller: an already-settled
success (stream already closed/errored), or a completion signal to wait
on. -/
inductive AbortOutcome where
  | immediateOk
  | onDeferred (id : ℕ)
deriving Repr, DecidableEq

/-- Modelled from the spec: `abort(reason)`. If the stream is already
errored or closed this is a no-op success. If an abort is already in
flight, the call folds into the existing PendingAbortRequest — it waits
on the same completion signal and no second abort sequence starts
(`wasAlreadyErroring` reflects that the stream was already erroring).
Otherwise the stream transitions to Erroring and records a new
PendingAbortRequest. The sink's `abort` collaborator is not invoked here
but at finalization. -/
def writableStreamAbort (s : WritableStream E) (reason : E) :
    AbortOutcome × WritableStream E :=
  match s.state with
  | WritableState.closed => (AbortOutcome.immediateOk, s)
  | WritableState.errored => (AbortOutcome.immediateOk, s)
  | _ =>
    match s.pendingAbortRequest with
    | some req => (AbortOutcome.onDeferred req.deferred, s)
    | Option.none =>
      let id := s.nextDeferredId
      (AbortOutcome.onDeferred id,
        { s with
          state := WritableState.erroring
          pendingAbortRequest :=
            some ⟨id, reason, s.state = WritableState.erroring⟩
          nextDeferredId := id + 1 })

/-- Modelled from the spec: finalizing the Erroring state to Errored —
the sink's `abort` collaborator is invoked with the recorded reason, the
pending request's completion signal settles, and the request is cleared. -/
def writableStreamFinishErroring (s : WritableStream E) : WritableStream E :=
  match s.pendingAbortRequest with
  | Option.none => { s with state := WritableState.errored }
  | some req =>
    { s with
      state := WritableState.errored
      pendingAbortRequest := Option.none
      sinkAbortCalls := s.sinkAbortCalls ++ [req.reason]
      settledDeferreds := s.settledDeferreds ++ [req.deferred] }

/-- C5: every PendingAbortRequest consists of exactly a completion
Deferred (the `deferred` field), a `reason`, and a `wasAlreadyErroring`
boolean; a stream structurally holds at most one such request, and an
`abort` call made while one is already recorded never installs a second
one — the existing request is kept untouched. -/
theorem pendingAbortRequest_shape_and_unique (E : Type) :
    (∀ p : PendingAbortRequest E,
      PendingAbortRequest.mk p.deferred p.reason p.wasAlreadyErroring = p) ∧
    (∀ s : WritableStream E, (Option.toList s.pendingAbortRequest).length ≤ 1) ∧
    (∀ (s : WritableStream E) (reason : E) (req : PendingAbortRequest E),
      s.pendingAbortRequest = some req →
      (writableStreamAbort s reason).2.pendingAbortRequest = some req) := by
  refine ⟨fun p => rfl, ?_, ?_⟩
  · intro s
    cases s.pendingAbortRequest <;> simp
  · intro s reason req hreq
    rw [writableStreamAbort]
    cases hs : s.state <;> simp_all

/-- C5 witness: an abort against a stream that already records a pending
request keeps that same request. -/
theorem pendingAbortRequest_shape_and_unique_witness :
    (writableStreamAbort
      (⟨WritableState.erroring, some ⟨0, 7, false⟩, 1, [], []⟩ : WritableStream ℕ)
      9).2.pendingAbortRequest = some ⟨0, 7, false⟩ :=
  (pendingAbortRequest_shape_and_unique ℕ).2.2
    ⟨WritableState.erroring, some ⟨0, 7, false⟩, 1, [], []⟩ 9 ⟨0, 7, false⟩ rfl

/-- C6: aborting with `r1` and then with `r2` while the first abort is
still in flight hands both callers the same completion signal, which
settles (once) at finalization — they settle together — and the sink's
`abort` collaborator is invoked exactly once, with `r1`. -/
theorem abort_idempotent (E : Type) (s0 : WritableStream E) (r1 r2 : E)
    (hstate : s0.state = WritableState.writable)
    (hnone : s0.pendingAbortRequest = Option.none) :
    ∃ id : ℕ,
      (writableStreamAbort s0 r1).1 = AbortOutcome.onDeferred id ∧
      (writableStreamAbort (writableStreamAbort s0 r1).2 r2).1 =
        AbortOutcome.onDeferred id ∧
      (writableStreamFinishErroring
        (writableStreamAbort (writableStreamAbort s0 r1).2 r2).2).settledDeferreds
        = s0.settledDeferreds ++ [id] ∧
      (writableStreamFinishErroring
        (writableStreamAbort (writableStreamAbort s0 r1).2 r2).2).sinkAbortCalls
        = s0.sinkAbortCalls ++ [r1] := by
  refine ⟨s0.nextDeferredId, ?_⟩
  have h1 : writableStreamAbort s0 r1 =
      (AbortOutcome.onDeferred s0.nextDeferredId,
        { s0 with
          state := WritableState.erroring
          pendingAbortRequest := some ⟨s0.nextDeferredId, r1, false⟩
          nextDeferredId := s0.nextDeferredId + 1 }) := by
    rw [writableStreamAbort]
    rw [hstate, hnone]
    simp
  rw [h1]
  have h2 : writableStreamAbort
      ({ s0 with
          state := WritableState.erroring
          pendingAbortRequest := some ⟨s0.nextDeferredId, r1, false⟩
          nextDeferredId := s0.nextDeferredId + 1 } : WritableStream E) r2 =
      (AbortOutcome.onDeferred s0.nextDeferredId,
        { s0 with
          state := WritableState.erroring
          pendingAbortRequest := some ⟨s0.nextDeferredId, r1, false⟩
          nextDeferredId := s0.nextDeferredId + 1 }) := by
    rw [writableStreamAbort]
  rw [h2]
  rw [writableStreamFinishErroring]
  exact ⟨rfl, rfl, rfl, rfl⟩

/-- C6 witness: the double-abort scenario on a fresh writable stream with
reasons `1` and `2`. -/
theorem abort_idempotent_witness :
    ∃ id : ℕ,
      (writableStreamAbort
        (⟨WritableState.writable, Option.none, 0, [], []⟩ : WritableStream ℕ)
        1).1 = AbortOutcome.onDeferred id ∧
      (writableStreamAbort
        (writableStreamAbort
          (⟨WritableState.writable, Option.none, 0, [], []⟩ : WritableStream ℕ)
          1).2 2).1 = AbortOutcome.onDeferred id ∧
      (writableStreamFinishErroring
        (writableStreamAbort
          (writableStreamAbort
            (⟨WritableState.writable, Option.none, 0, [], []⟩ : WritableStream ℕ)
            1).2 2).2).settledDeferreds = [] ++ [id] ∧
      (writableStreamFinishErroring
        (writableStreamAbort
          (writableStreamAbort
            (⟨WritableState.writable, Option.none, 0, [], []⟩ : WritableStream ℕ)
            1).2 2).2).sinkAbortCalls = [] ++ [1] :=
  abort_idempotent ℕ ⟨WritableState.writable, Option.none, 0, [], []⟩ 1 2 rfl rfl

/-! ## Readable cancel always settles (C7)

The consumer-facing reader interface (embedded from
`06_streams_types.d.ts`, `ReadableStreamGenericReader`) exposes
`cancel(reason): Promise<void>`; the cancel algorithm below is modelled
from the spec. -/

/-- The outcome of the source's `cancel` collaborator. -/
inductive SourceOutcome (E : Type) where
  | ok
  | rejected (e : E)
deriving Repr, DecidableEq

/-- The settlement of the consumer-facing `cancel()` promise. -/
inductive CancelResult (E : Type) where
  | resolved
  | rejectedWith (e : E)
deriving Repr, DecidableEq

/-- Readable stream states. -/
inductive ReadableState (E : Type) where
  | readable
  | closed
  | errored (e : E)
deriving Repr, DecidableEq

/-- Modelled from the spec: `cancel(reason)` on a readable stream
delegates to the source's cancel collaborator, always resolves from the
consumer's perspective (a source rejection is logged/discarded, never
propagated as a stream error), and transitions the stream toward Closed
regardless of the source outcome. On an already-closed stream it is a
no-op success; on an errored stream the call fails immediately with the
stored error, without re-invoking the collaborator. The result is the
consumer-facing settlement, the new state, and the log of discarded
source rejections. -/
def readableStreamCancel (st : ReadableState E) (src : SourceOutcome E) :
    CancelResult E × ReadableState E × List E :=
  match st with
  | ReadableState.closed => (CancelResult.resolved, ReadableState.closed, [])
  | ReadableState.errored e =>
    (CancelResult.rejectedWith e, ReadableState.errored e, [])
  | ReadableState.readable =>
    match src with
    | SourceOutcome.ok => (CancelResult.resolved, ReadableState.closed, [])
    | SourceOutcome.rejected e =>
      (CancelResult.resolved, ReadableState.closed, [e])

/-- C7: for every rejection `e` of the source's cancel collaborator, the
consumer-facing `cancel()` call on a readable stream still resolves (the
rejection is only logged, never surfaced), and the stream moves to
Closed. -/
theorem cancel_always_settles (E : Type) (e : E) :
    (readableStreamCancel ReadableState.readable
      (SourceOutcome.rejected e)).1 = CancelResult.resolved ∧
    (readableStreamCancel ReadableState.readable
      (SourceOutcome.rejected e)).2.1 = ReadableState.closed ∧
    (readableStreamCancel ReadableState.readable
      (SourceOutcome.rejected e)).2.2 = [e] :=
  ⟨rfl, rfl, rfl⟩

/-! ## Node inspector shim (C10)

Embedded from the inspector module (`src/unnamed/part_000`):
`function url() { return undefined; }` — the TODO comment notes it
returns `undefined` for now, meaning the inspector is not activated. -/

namespace NodeInspector

/-- Embedded from the source: `url()` takes no arguments and returns
`undefined`, modelled as `Option.none` (no active inspector URL). -/
def url : Unit → Option String := fun _ => Option.none

end NodeInspector

/-- C10: every call of the inspector module's `url()` returns
`undefined` — it never reports an active inspector URL. -/
theorem inspector_url_always_undefined (u : Unit) :
    NodeInspector.url u = Option.none :=
  rfl

/-- C2 witness: the accounting fact at the single-enqueue run of one
chunk of size 2, whose queued entry has non-negative size. -/
theorem queueTotalSize_eq_sum_and_nonneg_witness :
    (runQueueOps [QueueOp.enqueue (5:ℕ) 2]).queueTotalSize =
      ((runQueueOps [QueueOp.enqueue (5:ℕ) 2]).queue.map ValueWithSize.size).sum ∧
    (0:ℚ) ≤ (ValueWithSize.mk (5:ℕ) 2).size :=
  ⟨(queueTotalSize_eq_sum_and_nonneg ℕ [QueueOp.enqueue 5 2]).1,
   (queueTotalSize_eq_sum_and_nonneg ℕ [QueueOp.enqueue 5 2]).2 ⟨5, 2⟩
     (by norm_num [runQueueOps, QueueState.applyOp, enqueueValueWithSize,
       QueueState.initial])⟩
